import Mathlib

/-!
Verification of the becomeAnAuthor persistence layer (Rust backend).

Each section shallowly embeds one group of backend commands as pure Lean
functions over explicit state types, translated from the Rust source in
src/backend/src/commands and src/backend/src/utils, and proves or refutes
the frozen specification claims about them.

Conventions used throughout:
- a JSON collection file holding an array of records is modelled as a
  List of the corresponding record structure;
- the codex directory layout scope/category/id.json is modelled as a
  List of CodexFile records, one per file on disk;
- fallible commands are modelled with Option or Except String;
- wall-clock timestamps are explicit Int parameters.
-/

namespace BAA

/-! ## Codex data model (src/backend/src/models/codex.rs)

Only the fields that the verified commands inspect are carried; the
remaining fields of each Rust struct are payload that the commands copy
through untouched. -/

/-- CodexRelation: a typed edge between two codex entries. -/
structure CodexRelation where
  id : String
  parentId : String
  childId : String
  projectId : String
  typeId : Option String
  deriving DecidableEq, Repr

/-- SceneCodexLink: associates a manuscript scene with a codex entry. -/
structure SceneCodexLink where
  id : String
  sceneId : String
  codexId : String
  deriving DecidableEq, Repr

/-- CodexEntryTag: join row between a codex entry and a tag. -/
structure CodexEntryTag where
  id : String
  entryId : String
  tagId : String
  deriving DecidableEq, Repr

/-- CodexTag: a named label record. -/
structure CodexTag where
  id : String
  name : String
  deriving DecidableEq, Repr

/-- CodexRelationType: catalog record for typed relations. -/
structure CodexRelationType where
  id : String
  name : String
  deriving DecidableEq, Repr

/-- One codex entry file on disk at scope/category/entryId.json.
The body field stands for the serialized JSON content of the file. -/
structure CodexFile where
  category : String
  entryId : String
  body : String
  deriving DecidableEq, Repr

/-- The flat collections of one project scope: the codex entry files under
projectPath/.meta/codex plus the four sibling JSON collection files
(codex_relations.json, scene_codex_links.json, codex_entry_tags.json,
codex_tags.json, codex_relation_types.json). -/
structure ProjectCodexState where
  files : List CodexFile
  relations : List CodexRelation
  sceneLinks : List SceneCodexLink
  entryTags : List CodexEntryTag
  tags : List CodexTag
  relationTypes : List CodexRelationType
  deriving DecidableEq, Repr

/-! ## Codex commands (src/backend/src/commands/codex.rs) -/

/-- delete_codex_entry (codex.rs lines 69 to 109): removes every file named
entryId.json across all category folders, then filters the entry out of the
relations, scene-link and entry-tag collections. The tag and relation-type
collections are not touched by this command. -/
def delete_codex_entry (st : ProjectCodexState) (entryId : String) : ProjectCodexState :=
  { st with
    files := st.files.filter (fun f => f.entryId != entryId)
    relations := st.relations.filter (fun r => r.parentId != entryId && r.childId != entryId)
    sceneLinks := st.sceneLinks.filter (fun l => l.codexId != entryId)
    entryTags := st.entryTags.filter (fun t => t.entryId != entryId) }

/-- delete_codex_relation_type (codex.rs lines 127 to 141): filters the type
out of the relation-type catalog, then retains only the relations whose
typeId differs from the deleted type id. -/
def delete_codex_relation_type (st : ProjectCodexState) (typeId : String) : ProjectCodexState :=
  { st with
    relationTypes := st.relationTypes.filter (fun t => t.id != typeId)
    relations := st.relations.filter (fun r => r.typeId != some typeId) }

/-- The in-memory form of a codex entry about to be saved; id and category
drive the file placement, body stands for its serialized JSON. -/
structure EntryDoc where
  id : String
  category : String
  body : String
  deriving DecidableEq, Repr

/-- save_codex_entry (codex.rs lines 56 to 67): writes the entry file at
scope/category/id.json, overwriting a file already at that exact path.
It performs no scan of the other category folders. -/
def save_codex_entry (files : List CodexFile) (e : EntryDoc) : List CodexFile :=
  (files.filter (fun f => !(f.category == e.category && f.entryId == e.id)))
    ++ [⟨e.category, e.id, e.body⟩]

/-- save_series_codex_entry (series.rs lines 392 to 420): first removes every
file named id.json across all category folders of the series codex scope,
then writes the entry file at scope/category/id.json. -/
def save_series_codex_entry (files : List CodexFile) (e : EntryDoc) : List CodexFile :=
  (files.filter (fun f => f.entryId != e.id)) ++ [⟨e.category, e.id, e.body⟩]

/-- The series-level codex scope: entry files plus the series-local
codex_relations.json. The series directory holds no scene-link or
entry-tag collection; those live in the project scopes. -/
structure SeriesCodexState where
  files : List CodexFile
  relations : List CodexRelation
  deriving DecidableEq, Repr

/-- A series scope together with the flat link collections of one of the
projects that consume it; scene links and entry tags reference series codex
entries by id from the project side. -/
structure WorkspaceState where
  series : SeriesCodexState
  projSceneLinks : List SceneCodexLink
  projEntryTags : List CodexEntryTag
  deriving DecidableEq, Repr

/-- delete_series_codex_entry (series.rs lines 423 to 458): removes every
file named entryId.json across the series codex categories and filters the
entry out of the series relations collection. The project-level scene-link
and entry-tag collections are not read or written by this command. -/
def delete_series_codex_entry (w : WorkspaceState) (entryId : String) : WorkspaceState :=
  { w with
    series :=
      { files := w.series.files.filter (fun f => f.entryId != entryId)
        relations := w.series.relations.filter
          (fun r => r.parentId != entryId && r.childId != entryId) } }

/-! ## Claims C1, C4, C5 -/

/-- A workspace in which series entry E1 has a relation to E2, a project
scene link and a project entry-tag row, mirroring the spec scenario. -/
def c1Workspace : WorkspaceState :=
  { series :=
      { files := [⟨"character", "E1", "e1body"⟩, ⟨"character", "E2", "e2body"⟩]
        relations := [⟨"R1", "E1", "E2", "P1", none⟩] }
    projSceneLinks := [⟨"L1", "S1", "E1"⟩]
    projEntryTags := [⟨"ET1", "E1", "T1"⟩] }

/-- Claim C1, counterexample: deleting series codex entry E1 through
delete_series_codex_entry leaves the project scene-link row with
codexId = E1 and the project entry-tag row with entryId = E1 in place,
so after a delete of entry E1 a SceneCodexLink with codexId = E1 and a
CodexEntryTag with entryId = E1 still exist; only the series relations
are cascaded. -/
theorem delete_series_codex_entry_leaves_project_rows :
    ((delete_series_codex_entry c1Workspace "E1").projSceneLinks.any
        (fun l => l.codexId == "E1") = true)
  ∧ ((delete_series_codex_entry c1Workspace "E1").projEntryTags.any
        (fun t => t.entryId == "E1") = true)
  ∧ (delete_series_codex_entry c1Workspace "E1").series.relations = []
  ∧ ((delete_series_codex_entry c1Workspace "E1").series.files.any
        (fun f => f.entryId == "E1") = false) := by
  decide

/-- Claim C1 as amended: for the project-level delete_codex_entry, after
deleting entry e no relation references e as parent or child, no scene link
references e as codexId, no entry-tag row references e as entryId, every
other entry file and every non-referencing row is kept, and the tag and
relation-type collections are unchanged. The series-level delete cascades
only the series relations, leaving project scene-link and entry-tag rows
untouched. -/
theorem delete_codex_entry_cascades (st : ProjectCodexState) (e : String) :
    (∀ r ∈ (delete_codex_entry st e).relations, r.parentId ≠ e ∧ r.childId ≠ e)
  ∧ (∀ l ∈ (delete_codex_entry st e).sceneLinks, l.codexId ≠ e)
  ∧ (∀ t ∈ (delete_codex_entry st e).entryTags, t.entryId ≠ e)
  ∧ (∀ f ∈ (delete_codex_entry st e).files, f.entryId ≠ e)
  ∧ (∀ f ∈ st.files, f.entryId ≠ e → f ∈ (delete_codex_entry st e).files)
  ∧ (∀ r ∈ st.relations, r.parentId ≠ e → r.childId ≠ e →
        r ∈ (delete_codex_entry st e).relations)
  ∧ (∀ l ∈ st.sceneLinks, l.codexId ≠ e → l ∈ (delete_codex_entry st e).sceneLinks)
  ∧ (∀ t ∈ st.entryTags, t.entryId ≠ e → t ∈ (delete_codex_entry st e).entryTags)
  ∧ (delete_codex_entry st e).tags = st.tags
  ∧ (delete_codex_entry st e).relationTypes = st.relationTypes := by
  simp only [delete_codex_entry, List.mem_filter, Bool.and_eq_true, bne_iff_ne, ne_eq]
  refine ⟨?_, ?_, ?_, ?_, ?_, ?_, ?_, ?_, trivial, trivial⟩
  · exact fun r hr => ⟨hr.2.1, hr.2.2⟩
  · exact fun l hl => hl.2
  · exact fun t ht => ht.2
  · exact fun f hf => hf.2
  · exact fun f hf h => ⟨hf, h⟩
  · exact fun r hr h1 h2 => ⟨hr, h1, h2⟩
  · exact fun l hl h => ⟨hl, h⟩
  · exact fun t ht h => ⟨ht, h⟩

/-- A project codex state with entries E1, E2, a relation and rows that
reference E1, plus an unrelated tag record. -/
def c1ProjectState : ProjectCodexState :=
  { files := [⟨"character", "E1", "e1body"⟩, ⟨"character", "E2", "e2body"⟩]
    relations := [⟨"R1", "E1", "E2", "P1", none⟩, ⟨"R2", "E2", "E2", "P1", none⟩]
    sceneLinks := [⟨"L1", "S1", "E1"⟩, ⟨"L2", "S1", "E2"⟩]
    entryTags := [⟨"ET1", "E1", "T1"⟩, ⟨"ET2", "E2", "T1"⟩]
    tags := [⟨"T1", "hero"⟩]
    relationTypes := [] }

/-- Witness for the amended claim C1 at the scenario state. -/
theorem delete_codex_entry_cascades_witness :
    (∀ r ∈ (delete_codex_entry c1ProjectState "E1").relations,
        r.parentId ≠ "E1" ∧ r.childId ≠ "E1")
  ∧ (∀ l ∈ (delete_codex_entry c1ProjectState "E1").sceneLinks, l.codexId ≠ "E1")
  ∧ (∀ t ∈ (delete_codex_entry c1ProjectState "E1").entryTags, t.entryId ≠ "E1")
  ∧ (∀ f ∈ (delete_codex_entry c1ProjectState "E1").files, f.entryId ≠ "E1")
  ∧ (∀ f ∈ c1ProjectState.files, f.entryId ≠ "E1" →
        f ∈ (delete_codex_entry c1ProjectState "E1").files)
  ∧ (∀ r ∈ c1ProjectState.relations, r.parentId ≠ "E1" → r.childId ≠ "E1" →
        r ∈ (delete_codex_entry c1ProjectState "E1").relations)
  ∧ (∀ l ∈ c1ProjectState.sceneLinks, l.codexId ≠ "E1" →
        l ∈ (delete_codex_entry c1ProjectState "E1").sceneLinks)
  ∧ (∀ t ∈ c1ProjectState.entryTags, t.entryId ≠ "E1" →
        t ∈ (delete_codex_entry c1ProjectState "E1").entryTags)
  ∧ (delete_codex_entry c1ProjectState "E1").tags = c1ProjectState.tags
  ∧ (delete_codex_entry c1ProjectState "E1").relationTypes
      = c1ProjectState.relationTypes :=
  delete_codex_entry_cascades c1ProjectState "E1"

/-- A state holding one relation typed T1 and the T1 catalog record. -/
def c4State : ProjectCodexState :=
  { files := []
    relations := [⟨"R1", "E1", "E2", "P1", some "T1"⟩]
    sceneLinks := []
    entryTags := []
    tags := []
    relationTypes := [⟨"T1", "ally"⟩] }

/-- Claim C4, counterexample: the state holds relation R1 with
typeId = some T1; after delete_codex_relation_type of T1 the relations
collection is empty, so R1 was removed rather than kept with its typeId
cleared. -/
theorem delete_codex_relation_type_removes_relation :
    (c4State.relations.any (fun r => r.id == "R1" && r.typeId == some "T1") = true)
  ∧ (delete_codex_relation_type c4State "T1").relations = []
  ∧ ((delete_codex_relation_type c4State "T1").relations.any
        (fun r => r.id == "R1") = false) := by
  decide

/-- Claim C4 as amended: deleting relation type T removes from the relations
collection exactly the relations whose typeId equals some T; every relation
with a different or absent typeId is kept unchanged, the type is removed
from the catalog, and no other collection is touched. -/
theorem delete_codex_relation_type_filters (st : ProjectCodexState) (tid : String) :
    (∀ r : CodexRelation, r ∈ (delete_codex_relation_type st tid).relations
        ↔ (r ∈ st.relations ∧ r.typeId ≠ some tid))
  ∧ (∀ t : CodexRelationType, t ∈ (delete_codex_relation_type st tid).relationTypes
        ↔ (t ∈ st.relationTypes ∧ t.id ≠ tid))
  ∧ (delete_codex_relation_type st tid).files = st.files
  ∧ (delete_codex_relation_type st tid).sceneLinks = st.sceneLinks
  ∧ (delete_codex_relation_type st tid).entryTags = st.entryTags
  ∧ (delete_codex_relation_type st tid).tags = st.tags := by
  simp [delete_codex_relation_type, List.mem_filter]

/-- Witness for the amended claim C4 at the concrete state. -/
theorem delete_codex_relation_type_filters_witness :
    (∀ r : CodexRelation, r ∈ (delete_codex_relation_type c4State "T1").relations
        ↔ (r ∈ c4State.relations ∧ r.typeId ≠ some "T1"))
  ∧ (∀ t : CodexRelationType, t ∈ (delete_codex_relation_type c4State "T1").relationTypes
        ↔ (t ∈ c4State.relationTypes ∧ t.id ≠ "T1"))
  ∧ (delete_codex_relation_type c4State "T1").files = c4State.files
  ∧ (delete_codex_relation_type c4State "T1").sceneLinks = c4State.sceneLinks
  ∧ (delete_codex_relation_type c4State "T1").entryTags = c4State.entryTags
  ∧ (delete_codex_relation_type c4State "T1").tags = c4State.tags :=
  delete_codex_relation_type_filters c4State "T1"

/-- Claim C5, counterexample: with the project-level save_codex_entry,
saving entry E1 under category item and then saving the same entry under
category lore leaves two files named E1.json on disk, one under each
category; the project-level save performs no stale-copy scan. -/
theorem save_codex_entry_leaves_stale_copy :
    ((save_codex_entry (save_codex_entry [] ⟨"E1", "item", "v1"⟩)
        ⟨"E1", "lore", "v2"⟩).filter (fun f => f.entryId == "E1")).length = 2 := by
  decide

/-- Helper: removing every file of an id and then selecting that id yields
nothing. -/
theorem filter_ne_then_eq_nil (l : List CodexFile) (d : String) :
    (l.filter (fun f => f.entryId != d)).filter (fun f => f.entryId == d) = [] := by
  induction l with
  | nil => rfl
  | cons f fs ih =>
    by_cases h : f.entryId = d
    · simp [h, ih]
    · simp [h, ih]

/-- Claim C5 as amended: only the series-level save_series_codex_entry scans
every category folder of the scope and deletes stale copies before writing,
so that after a series-level save exactly one file for the entry id exists,
under the most recently saved category; the project-level save_codex_entry
writes scope/category/id.json without any scan, so reassigning a category
at the project level leaves a stale duplicate under the prior category. -/
theorem save_series_codex_entry_unique_file (files : List CodexFile) (e : EntryDoc) :
    (save_series_codex_entry files e).filter (fun f => f.entryId == e.id)
      = [⟨e.category, e.id, e.body⟩] := by
  simp only [save_series_codex_entry, List.filter_append, filter_ne_then_eq_nil,
    List.nil_append]
  simp [List.filter]

/-! ## Claim C2: codex remapping in import_series_backup
(src/backend/src/commands/backup.rs lines 997 to 1032)

The import loop over backup projects inserts (old project id, freshly
generated id) into project_id_map; the codex block then rewrites each
backup codex entry before writing it under the new series codex
directory. -/

/-- project_id_map.insert of the Rust HashMap: an existing binding for the
key is overwritten. -/
def insert_project_id (m : List (String × String)) (oldId newId : String) :
    List (String × String) :=
  m.filter (fun p => p.1 != oldId) ++ [(oldId, newId)]

/-- The remap table built by the project loop of import_series_backup: one
insert per backup project, pairing its old id with the new uuid. -/
def build_project_id_map (pairs : List (String × String)) : List (String × String) :=
  pairs.foldl (fun m p => insert_project_id m p.1 p.2) []

/-- A codex entry record as found in the backup JSON; fields are optional
because the import reads them defensively from untyped JSON. -/
structure BackupCodexEntry where
  id : Option String
  category : Option String
  projectId : Option String
  seriesId : Option String
  deriving DecidableEq, Repr

/-- A codex entry file written by the import under
seriesCodexDir/category/entryId.json, with the rewritten fields. -/
structure ImportedCodexFile where
  category : String
  entryId : String
  projectId : Option String
  seriesId : Option String
  deriving DecidableEq, Repr

/-- One iteration of the codex import loop: category defaults to lore, a
missing id aborts the import, seriesId is overwritten with the new series
id, and projectId is replaced only when the remap table has a binding for
the old project id; otherwise the field is left as it was. -/
def import_codex_entry (pmap : List (String × String)) (sid : String)
    (e : BackupCodexEntry) : Except String ImportedCodexFile :=
  match e.id with
  | none => .error "Codex entry missing id"
  | some eid =>
    let category := e.category.getD "lore"
    let newProjectId :=
      match e.projectId with
      | some old =>
        match pmap.lookup old with
        | some newId => some newId
        | none => some old
      | none => none
    .ok ⟨category, eid, newProjectId, some sid⟩

/-- The codex import loop of import_series_backup: each entry is rewritten
and written in order; the first entry without an id aborts the import. -/
def import_codex_entries (pmap : List (String × String)) (sid : String) :
    List BackupCodexEntry → Except String (List ImportedCodexFile)
  | [] => .ok []
  | e :: rest =>
    match import_codex_entry pmap sid e with
    | .error msg => .error msg
    | .ok w =>
      match import_codex_entries pmap sid rest with
      | .error msg => .error msg
      | .ok ws => .ok (w :: ws)

/-- Claim C2, counterexample: a backup codex entry whose projectId POLD has
no binding in the remap table is still written to the series codex
directory, with its stale projectId preserved, instead of being skipped. -/
theorem import_codex_keeps_stale_project_id :
    import_codex_entries [] "SNEW"
        [⟨some "E1", some "character", some "POLD", some "SOLD"⟩]
      = .ok [⟨"character", "E1", some "POLD", some "SNEW"⟩]
  ∧ (([] : List (String × String)).lookup "POLD" = none) := by
  exact ⟨rfl, rfl⟩

/-- What the rewrite of one backup codex entry guarantees about the file
written for it. -/
def ImportedEntrySpec (pmap : List (String × String)) (sid : String)
    (e : BackupCodexEntry) (w : ImportedCodexFile) : Prop :=
  e.id = some w.entryId
  ∧ w.category = e.category.getD "lore"
  ∧ w.seriesId = some sid
  ∧ (∀ oldId newId, e.projectId = some oldId → pmap.lookup oldId = some newId →
      w.projectId = some newId)
  ∧ (∀ oldId, e.projectId = some oldId → pmap.lookup oldId = none →
      w.projectId = some oldId)
  ∧ (e.projectId = none → w.projectId = none)

/-- Claim C2 as amended: when every backup codex entry has an id, the import
writes one file per entry (none is skipped); an entry whose projectId has a
binding in the remap table is written with the newly generated project id,
and an entry whose projectId has no binding is written with its stale
projectId unchanged. -/
theorem import_codex_entries_remap (pmap : List (String × String)) (sid : String)
    (es : List BackupCodexEntry) (hs : ∀ e ∈ es, e.id ≠ none) :
    ∃ ws, import_codex_entries pmap sid es = .ok ws
      ∧ ws.length = es.length
      ∧ List.Forall₂ (ImportedEntrySpec pmap sid) es ws := by
  induction es with
  | nil => exact ⟨[], rfl, rfl, List.Forall₂.nil⟩
  | cons e rest ih =>
    obtain ⟨ws, hok, hlen, hall⟩ := ih (fun x hx => hs x (List.mem_cons_of_mem e hx))
    have hid : e.id ≠ none := hs e (List.mem_cons_self e rest)
    obtain ⟨eid, heid⟩ : ∃ eid, e.id = some eid := by
      cases h : e.id with
      | none => exact absurd h hid
      | some v => exact ⟨v, rfl⟩
    refine ⟨⟨e.category.getD "lore", eid,
        match e.projectId with
        | some old =>
          match pmap.lookup old with
          | some newId => some newId
          | none => some old
        | none => none, some sid⟩ :: ws, ?_, ?_, ?_⟩
    · simp only [import_codex_entries, import_codex_entry, heid, hok]
    · simp [hlen]
    · refine List.Forall₂.cons ⟨heid, rfl, rfl, ?_, ?_, ?_⟩ hall
      · intro oldId newId hp hl
        simp only [hp, hl]
      · intro oldId hp hl
        simp only [hp, hl]
      · intro hp
        simp only [hp]

/-- Witness for the amended claim C2: a remap table built from one backup
project (old id POLD mapped to fresh id PNEW) and two entries, one
remappable and one stale. -/
theorem import_codex_entries_remap_witness :
    ∃ ws, import_codex_entries (build_project_id_map [("POLD", "PNEW")]) "SNEW"
        [⟨some "E1", some "character", some "POLD", some "SOLD"⟩,
         ⟨some "E2", none, some "PGONE", some "SOLD"⟩] = .ok ws
      ∧ ws.length = 2
      ∧ List.Forall₂ (ImportedEntrySpec (build_project_id_map [("POLD", "PNEW")]) "SNEW")
          [⟨some "E1", some "character", some "POLD", some "SOLD"⟩,
           ⟨some "E2", none, some "PGONE", some "SOLD"⟩] ws :=
  import_codex_entries_remap (build_project_id_map [("POLD", "PNEW")]) "SNEW"
    [⟨some "E1", some "character", some "POLD", some "SOLD"⟩,
     ⟨some "E2", none, some "PGONE", some "SOLD"⟩] (by decide)

/-! ## Structure tree store (src/backend/src/commands/project.rs)

StructureNode (models/project.rs): id, node_type, title, order, children,
optional file reference; the structure document is a list of root nodes. -/

inductive StructureNode where
  | mk (id : String) (nodeType : String) (title : String) (order : Int)
      (children : List StructureNode) (file : Option String)
  deriving Repr

def StructureNode.id : StructureNode → String
  | .mk i _ _ _ _ _ => i

def StructureNode.nodeType : StructureNode → String
  | .mk _ t _ _ _ _ => t

def StructureNode.title : StructureNode → String
  | .mk _ _ ti _ _ _ => ti

def StructureNode.order : StructureNode → Int
  | .mk _ _ _ o _ _ => o

def StructureNode.children : StructureNode → List StructureNode
  | .mk _ _ _ _ cs _ => cs

def StructureNode.file : StructureNode → Option String
  | .mk _ _ _ _ _ f => f

/-! collect_scene_files (project.rs lines 755 to 762): pushes the file of
the node, then recurses into its children in order. -/

mutual

def collect_scene_files : StructureNode → List String
  | .mk _ _ _ _ cs f => f.toList ++ collect_scene_files_list cs

def collect_scene_files_list : List StructureNode → List String
  | [] => []
  | n :: ns => collect_scene_files n ++ collect_scene_files_list ns

end

/-- The first stage of delete_from_tree (project.rs lines 764 to 769): the
position scan over the current level; on a match it collects the files of
the matched subtree and removes the node from the level. -/
def level_delete : List StructureNode → String →
    Option (List StructureNode × List String)
  | [], _ => none
  | n :: ns, nid =>
    if n.id = nid then some (ns, collect_scene_files n)
    else
      match level_delete ns nid with
      | some (ns', fs) => some (n :: ns', fs)
      | none => none

/-! delete_from_tree (project.rs lines 764 to 776): first the position scan
over the whole level, then the loop that recurses into the children of each
node in order, stopping at the first subtree reporting success. The result
carries the updated level, the collected files and the found flag. -/

mutual

def delete_from_tree (nodes : List StructureNode) (nid : String) :
    List StructureNode × List String × Bool :=
  match level_delete nodes nid with
  | some (ns, fs) => (ns, fs, true)
  | none => delete_from_children nodes nid
termination_by (sizeOf nodes, 1)

def delete_from_children : List StructureNode → String →
    List StructureNode × List String × Bool
  | [], _ => ([], [], false)
  | .mk i t ti o cs f :: ns, nid =>
    match delete_from_tree cs nid with
    | (cs', fs, true) => (.mk i t ti o cs' f :: ns, fs, true)
    | _ =>
      match delete_from_children ns nid with
      | (ns', fs', b) => (.mk i t ti o cs f :: ns', fs', b)
termination_by ns _ => (sizeOf ns, 0)

end

/-! find_target mirrors the search order of delete_from_tree without
mutating: level scan first, then the children of each node in order. It
names the node that delete_from_tree removes. -/

mutual

def find_target (nodes : List StructureNode) (nid : String) :
    Option StructureNode :=
  match nodes.find? (fun n => n.id == nid) with
  | some n => some n
  | none => find_target_children nodes nid
termination_by (sizeOf nodes, 1)

def find_target_children : List StructureNode → String → Option StructureNode
  | [], _ => none
  | .mk _ _ _ _ cs _ :: ns, nid =>
    match find_target cs nid with
    | some tgt => some tgt
    | none => find_target_children ns nid
termination_by ns _ => (sizeOf ns, 0)

end

theorem level_delete_of_find (nodes : List StructureNode) (nid : String)
    (n : StructureNode) (h : nodes.find? (fun m => m.id == nid) = some n) :
    ∃ ns', level_delete nodes nid = some (ns', collect_scene_files n) := by
  induction nodes with
  | nil => simp at h
  | cons m ms ih =>
    rw [List.find?_cons] at h
    by_cases hm : m.id = nid
    · rw [show (m.id == nid) = true by simp [hm]] at h
      cases h
      exact ⟨ms, by simp [level_delete, hm]⟩
    · rw [show (m.id == nid) = false by simp [hm]] at h
      obtain ⟨ns', hns⟩ := ih h
      exact ⟨m :: ns', by simp [level_delete, hm, hns]⟩

theorem level_delete_of_find_none (nodes : List StructureNode) (nid : String)
    (h : nodes.find? (fun m => m.id == nid) = none) :
    level_delete nodes nid = none := by
  induction nodes with
  | nil => rfl
  | cons m ms ih =>
    rw [List.find?_cons] at h
    by_cases hm : m.id = nid
    · rw [show (m.id == nid) = true by simp [hm]] at h
      exact Option.noConfusion h
    · rw [show (m.id == nid) = false by simp [hm]] at h
      rw [level_delete, if_neg hm, ih h]

/-- Joint specification of delete_from_tree against find_target for one
level. -/
def DelSpecList (nodes : List StructureNode) (nid : String) : Prop :=
  (∀ t, find_target nodes nid = some t →
    ∃ ns', delete_from_tree nodes nid = (ns', collect_scene_files t, true))
  ∧ (find_target nodes nid = none → delete_from_tree nodes nid = (nodes, [], false))

/-- Joint specification of delete_from_children against
find_target_children. -/
def DelSpecChildren (nodes : List StructureNode) (nid : String) : Prop :=
  (∀ t, find_target_children nodes nid = some t →
    ∃ ns', delete_from_children nodes nid = (ns', collect_scene_files t, true))
  ∧ (find_target_children nodes nid = none →
      delete_from_children nodes nid = (nodes, [], false))

theorem delete_from_tree_spec : ∀ nodes nid, DelSpecList nodes nid := by
  refine find_target.induct DelSpecList DelSpecChildren ?_ ?_ ?_ ?_ ?_
  · intro nodes nid n hfind
    constructor
    · intro t ht
      rw [find_target, hfind] at ht
      cases ht
      obtain ⟨ns', hns⟩ := level_delete_of_find nodes nid n hfind
      exact ⟨ns', by rw [delete_from_tree, hns]⟩
    · intro ht
      rw [find_target, hfind] at ht
      exact Option.noConfusion ht
  · intro nodes nid hfind ih
    have hld := level_delete_of_find_none nodes nid hfind
    constructor
    · intro t ht
      rw [find_target, hfind] at ht
      obtain ⟨ns', hns⟩ := ih.1 t ht
      exact ⟨ns', by rw [delete_from_tree, hld]; exact hns⟩
    · intro ht
      rw [find_target, hfind] at ht
      rw [delete_from_tree, hld]
      exact ih.2 ht
  · intro nid
    constructor
    · intro t ht
      simp [find_target_children] at ht
    · intro _
      rw [delete_from_children]
  · intro i t ti o cs f ns nid n hcs ihcs
    constructor
    · intro tgt htgt
      rw [find_target_children, hcs] at htgt
      cases htgt
      obtain ⟨cs', hdel⟩ := ihcs.1 n hcs
      refine ⟨.mk i t ti o cs' f :: ns, ?_⟩
      rw [delete_from_children, hdel]
    · intro htgt
      rw [find_target_children, hcs] at htgt
      exact Option.noConfusion htgt
  · intro i t ti o cs f ns nid hcs ihcs ihns
    have hdelcs : delete_from_tree cs nid = (cs, [], false) := ihcs.2 hcs
    constructor
    · intro tgt htgt
      rw [find_target_children, hcs] at htgt
      obtain ⟨ns', hns⟩ := ihns.1 tgt htgt
      refine ⟨.mk i t ti o cs f :: ns', ?_⟩
      rw [delete_from_children, hdelcs]
      simp [hns]
    · intro htgt
      rw [find_target_children, hcs] at htgt
      rw [delete_from_children, hdelcs]
      simp [ihns.2 htgt]

/-- delete_node (project.rs lines 749 to 793) as a state transformer: the
structure document and the manuscript directory (a list of file names)
before and after the command. The files collected from the removed subtree
are deleted from the manuscript directory; each is removed only if
present. -/
def delete_node (tree : List StructureNode) (manuscript : List String)
    (nid : String) : List StructureNode × List String :=
  let r := delete_from_tree tree nid
  (r.1, manuscript.filter (fun m => !(r.2.1.contains m)))

/-- Claim C6: for every tree and node id present in it, delete_node removes
from the manuscript directory exactly the files referenced by file fields
of nodes in the deleted subtree: the collected file list equals the file
list of the matched subtree, and a file survives in the manuscript
directory iff it was there before and is not referenced by the removed
subtree. -/
theorem delete_node_removes_exactly_subtree_files (tree : List StructureNode)
    (manuscript : List String) (nid : String) (tgt : StructureNode)
    (h : find_target tree nid = some tgt) :
    (delete_from_tree tree nid).2.1 = collect_scene_files tgt
    ∧ ∀ f : String, f ∈ (delete_node tree manuscript nid).2
        ↔ (f ∈ manuscript ∧ f ∉ collect_scene_files tgt) := by
  obtain ⟨ns', hd⟩ := (delete_from_tree_spec tree nid).1 tgt h
  refine ⟨by rw [hd], fun f => ?_⟩
  simp [delete_node, hd, List.mem_filter]

/-- The subtree of chapter ch1 in the example tree below. -/
def exCh1 : StructureNode :=
  .mk "ch1" "chapter" "Chapter 1" 0
    [.mk "sc1" "scene" "Scene 1" 0 [] (some "sc1.md"),
     .mk "sc2" "scene" "Scene 2" 1 [] (some "sc2.md")] none

/-- An act containing two chapters; ch1 holds scenes sc1 and sc2, ch2 holds
scene sc3. -/
def exTree : List StructureNode :=
  [.mk "act1" "act" "Act 1" 0
    [exCh1,
     .mk "ch2" "chapter" "Chapter 2" 1
       [.mk "sc3" "scene" "Scene 3" 0 [] (some "sc3.md")] none] none]

/-- Witness for claim C6: deleting chapter ch1 from the example tree
removes exactly sc1.md and sc2.md from the manuscript directory, leaving
sc3.md. -/
theorem delete_node_removes_exactly_subtree_files_witness :
    (delete_from_tree exTree "ch1").2.1 = collect_scene_files exCh1
    ∧ ∀ f : String,
        f ∈ (delete_node exTree ["sc1.md", "sc2.md", "sc3.md"] "ch1").2
        ↔ (f ∈ ["sc1.md", "sc2.md", "sc3.md"] ∧ f ∉ collect_scene_files exCh1) :=
  delete_node_removes_exactly_subtree_files exTree ["sc1.md", "sc2.md", "sc3.md"]
    "ch1" exCh1 (by
      simp [exTree, exCh1, find_target, find_target_children, StructureNode.id,
        List.find?])

/-! ## Claim C7: ordering of the persisted effects of delete_node

delete_node performs, in order: read structure.json, mutate the tree in
memory, delete the collected manuscript files from disk (project.rs lines
781 to 787), and only then write the updated tree back to structure.json
(lines 789 to 790). The persisted effects are modelled as an ordered
list. -/

inductive FsEffect where
  | removeFile (name : String)
  | writeStructure (tree : List StructureNode)
  deriving Repr

/-- The ordered persisted effects of delete_node: one file removal per
collected file that exists in the manuscript directory, followed by the
single whole-document write of the updated tree. -/
def delete_node_effects (tree : List StructureNode) (manuscript : List String)
    (nid : String) : List FsEffect :=
  let r := delete_from_tree tree nid
  ((r.2.1.filter (fun f => manuscript.contains f)).map FsEffect.removeFile)
    ++ [FsEffect.writeStructure r.1]

/-- The on-disk state a crash can observe: the stored structure document
and the manuscript directory. -/
structure ProjectDisk where
  storedTree : List StructureNode
  manuscript : List String
  deriving Repr

def applyEffect (d : ProjectDisk) : FsEffect → ProjectDisk
  | .removeFile f => { d with manuscript := d.manuscript.filter (fun m => m != f) }
  | .writeStructure t => { d with storedTree := t }

def applyEffects (effs : List FsEffect) (d : ProjectDisk) : ProjectDisk :=
  effs.foldl applyEffect d

/-- A one-scene tree whose only node references n1.md. -/
def c7Tree : List StructureNode :=
  [.mk "n1" "scene" "Scene 1" 0 [] (some "n1.md")]

/-- Claim C7, counterexample: deleting node n1 emits the file removal
before the tree write, and the crash state after the first persisted
effect has the old tree still stored while n1.md is gone from the
manuscript directory: the persisted tree references an already-deleted
manuscript file, the dangling state the claim rules out. -/
theorem delete_node_files_removed_before_tree_write :
    delete_node_effects c7Tree ["n1.md"] "n1"
      = [FsEffect.removeFile "n1.md", FsEffect.writeStructure []]
    ∧ (applyEffects ((delete_node_effects c7Tree ["n1.md"] "n1").take 1)
        ⟨c7Tree, ["n1.md"]⟩).storedTree = c7Tree
    ∧ (applyEffects ((delete_node_effects c7Tree ["n1.md"] "n1").take 1)
        ⟨c7Tree, ["n1.md"]⟩).manuscript = []
    ∧ collect_scene_files_list c7Tree = ["n1.md"] := by
  have h1 : delete_node_effects c7Tree ["n1.md"] "n1"
      = [FsEffect.removeFile "n1.md", FsEffect.writeStructure []] := by
    simp [delete_node_effects, c7Tree, delete_from_tree, level_delete,
      collect_scene_files, collect_scene_files_list, StructureNode.id]
  refine ⟨h1, ?_, ?_, ?_⟩
  · rw [h1]
    rfl
  · rw [h1]
    rfl
  · simp [c7Tree, collect_scene_files_list, collect_scene_files]

theorem applyEffects_removes_keep_tree (fs : List String) (d : ProjectDisk) :
    (applyEffects (fs.map FsEffect.removeFile) d).storedTree = d.storedTree := by
  induction fs generalizing d with
  | nil => rfl
  | cons f fs ih => exact ih _

/-- Claim C7 as amended: delete_node sequences its persisted effects so
that every collected manuscript file is deleted before the updated tree
document is written; the tree write is the last persisted effect, so after
any strict prefix of the effects (any crash point) the stored tree is
still the old tree, which can reference already-deleted files (dangling
references); a crash never leaves orphan files. -/
theorem delete_node_effects_order (tree : List StructureNode)
    (manuscript : List String) (nid : String) :
    (∃ fs : List String, delete_node_effects tree manuscript nid
      = List.map FsEffect.removeFile fs
        ++ [FsEffect.writeStructure (delete_from_tree tree nid).1])
    ∧ (∀ k, k < (delete_node_effects tree manuscript nid).length →
        (applyEffects ((delete_node_effects tree manuscript nid).take k)
          ⟨tree, manuscript⟩).storedTree = tree) := by
  constructor
  · exact ⟨List.filter (fun f => manuscript.contains f)
      (delete_from_tree tree nid).2.1, rfl⟩
  · intro k hk
    set fs := List.filter (fun f => manuscript.contains f)
      (delete_from_tree tree nid).2.1 with hfs
    have heq : delete_node_effects tree manuscript nid
        = fs.map FsEffect.removeFile
          ++ [FsEffect.writeStructure (delete_from_tree tree nid).1] := rfl
    rw [heq] at hk ⊢
    have hk2 : k ≤ (fs.map FsEffect.removeFile).length := by
      simp at hk
      simp
      omega
    rw [List.take_append_of_le_length hk2, ← List.map_take]
    exact applyEffects_removes_keep_tree _ _

/-- Witness for the amended claim C7 at the one-scene example. -/
theorem delete_node_effects_order_witness :
    (∃ fs : List String, delete_node_effects c7Tree ["n1.md"] "n1"
      = List.map FsEffect.removeFile fs
        ++ [FsEffect.writeStructure (delete_from_tree c7Tree "n1").1])
    ∧ (∀ k, k < (delete_node_effects c7Tree ["n1.md"] "n1").length →
        (applyEffects ((delete_node_effects c7Tree ["n1.md"] "n1").take k)
          ⟨c7Tree, ["n1.md"]⟩).storedTree = c7Tree) :=
  delete_node_effects_order c7Tree ["n1.md"] "n1"

/-! ## Claim C10: create_node with an unknown parent id
(src/backend/src/commands/project.rs lines 634 to 721) -/

/-- True iff some node of the forest (at any depth) has the given id. -/
def contains_id : List StructureNode → String → Bool
  | [], _ => false
  | .mk i _ _ _ cs _ :: ns, nid =>
    i == nid || contains_id cs nid || contains_id ns nid

/-- find_parent inside count_children (project.rs lines 653 to 664): the
first node found in preorder whose id matches yields its child count. -/
def find_parent : List StructureNode → String → Option Nat
  | [], _ => none
  | .mk i _ _ _ cs _ :: ns, pid =>
    if i == pid then some cs.length
    else
      match find_parent cs pid with
      | some c => some c
      | none => find_parent ns pid

/-- add_to_parent for a Some parent id (project.rs lines 694 to 712): each
node is checked, then its children are searched, before moving to the next
sibling; the flag reports whether the node was inserted anywhere. -/
def add_to_parent_some : List StructureNode → String → StructureNode →
    List StructureNode × Bool
  | [], _, _ => ([], false)
  | .mk i t ti o cs f :: ns, pid, newNode =>
    if i == pid then (.mk i t ti o (cs ++ [newNode]) f :: ns, true)
    else
      match add_to_parent_some cs pid newNode with
      | (cs', true) => (.mk i t ti o cs' f :: ns, true)
      | _ =>
        match add_to_parent_some ns pid newNode with
        | (ns', b) => (.mk i t ti o cs f :: ns', b)

/-- The YAML front matter written for a new scene (project.rs lines 685
to 688). -/
def scene_frontmatter (id title : String) (order : Int) (nowRfc : String) :
    String :=
  "---\nid: " ++ id ++ "\ntitle: \"" ++ title ++ "\"\norder: "
    ++ toString order
    ++ "\nstatus: draft\nwordCount: 0\npov: null\nsubtitle: null\nlabels: []\n"
    ++ "excludeFromAI: false\nsummary: \"\"\narchived: false\ncreatedAt: "
    ++ nowRfc ++ "\nupdatedAt: " ++ nowRfc ++ "\n---\n\n"

/-- What create_node produces: the returned node, the structure document
written back, and the companion manuscript file (name and content) if one
was created. -/
structure CreateNodeResult where
  node : StructureNode
  newTree : List StructureNode
  createdFile : Option (String × String)
  deriving Repr

/-- create_node (project.rs lines 634 to 721): the order is the child count
of the target parent (0 when the parent is not found), a scene node gets a
companion newId.md file written before the tree is updated, and the node
is appended under the parent found by add_to_parent; the function returns
the built node regardless of whether the insertion found the parent. -/
def create_node (tree : List StructureNode) (nodeType title : String)
    (parentId : Option String) (newId : String) (nowRfc : String) :
    CreateNodeResult :=
  let order : Int :=
    match parentId with
    | none => (tree.length : Int)
    | some pid =>
      match find_parent tree pid with
      | some c => (c : Int)
      | none => 0
  let fileRef : Option String :=
    if nodeType == "scene" then some (newId ++ ".md") else none
  let createdFile : Option (String × String) :=
    if nodeType == "scene" then
      some (newId ++ ".md", scene_frontmatter newId title order nowRfc)
    else none
  let node : StructureNode := .mk newId nodeType title order [] fileRef
  let tree' : List StructureNode :=
    match parentId with
    | none => tree ++ [node]
    | some pid => (add_to_parent_some tree pid node).1
  ⟨node, tree', createdFile⟩

theorem find_parent_of_not_contains (nodes : List StructureNode) (pid : String)
    (h : contains_id nodes pid = false) : find_parent nodes pid = none := by
  induction nodes, pid using contains_id.induct with
  | case1 pid => rw [find_parent]
  | case2 i t ti o cs f ns pid ihcs ihns =>
    simp only [contains_id, Bool.or_eq_false_iff, beq_eq_false_iff_ne] at h
    rw [find_parent, if_neg (by simpa using h.1.1), ihcs h.1.2, ihns h.2]

theorem add_to_parent_some_of_not_contains (nodes : List StructureNode)
    (pid : String) (nn : StructureNode) (h : contains_id nodes pid = false) :
    add_to_parent_some nodes pid nn = (nodes, false) := by
  induction nodes, pid using contains_id.induct with
  | case1 pid => rw [add_to_parent_some]
  | case2 i t ti o cs f ns pid ihcs ihns =>
    simp only [contains_id, Bool.or_eq_false_iff, beq_eq_false_iff_ne] at h
    rw [add_to_parent_some, if_neg (by simpa using h.1.1), ihcs h.1.2, ihns h.2]

/-- Claim C10: when create_node is called with a parentId matching no node
of the tree, the command still returns the newly built node with order 0,
the structure document written back equals the old tree (the node is
absent from it), and for a scene node the companion manuscript file is
still created, leaving an orphan file. -/
theorem create_node_missing_parent (tree : List StructureNode)
    (nodeType title pid newId nowRfc : String)
    (h : contains_id tree pid = false) :
    (create_node tree nodeType title (some pid) newId nowRfc).newTree = tree
    ∧ (create_node tree nodeType title (some pid) newId nowRfc).node.order = 0
    ∧ (create_node tree nodeType title (some pid) newId nowRfc).node
        = .mk newId nodeType title 0 []
            (if nodeType == "scene" then some (newId ++ ".md") else none)
    ∧ (nodeType = "scene" →
        (create_node tree nodeType title (some pid) newId nowRfc).createdFile
          = some (newId ++ ".md", scene_frontmatter newId title 0 nowRfc)) := by
  have hfp := find_parent_of_not_contains tree pid h
  refine ⟨?_, ?_, ?_, ?_⟩
  · simp [create_node, hfp, add_to_parent_some_of_not_contains, h]
  · simp [create_node, hfp, StructureNode.order]
  · simp [create_node, hfp]
  · intro hs
    simp [create_node, hfp, hs]

/-- Witness for claim C10: creating a scene under the unknown parent id
ZZZ in a one-act tree. -/
theorem create_node_missing_parent_witness :
    (create_node [StructureNode.mk "A" "act" "Act 1" 0 [] none] "scene"
        "New Scene" (some "ZZZ") "fresh1" "2026-01-01T00:00:00Z").newTree
      = [StructureNode.mk "A" "act" "Act 1" 0 [] none]
    ∧ (create_node [StructureNode.mk "A" "act" "Act 1" 0 [] none] "scene"
        "New Scene" (some "ZZZ") "fresh1" "2026-01-01T00:00:00Z").node.order = 0
    ∧ (create_node [StructureNode.mk "A" "act" "Act 1" 0 [] none] "scene"
        "New Scene" (some "ZZZ") "fresh1" "2026-01-01T00:00:00Z").node
        = .mk "fresh1" "scene" "New Scene" 0 []
            (if "scene" == "scene" then some ("fresh1" ++ ".md") else none)
    ∧ ("scene" = "scene" →
        (create_node [StructureNode.mk "A" "act" "Act 1" 0 [] none] "scene"
          "New Scene" (some "ZZZ") "fresh1" "2026-01-01T00:00:00Z").createdFile
          = some ("fresh1" ++ ".md",
              scene_frontmatter "fresh1" "New Scene" 0 "2026-01-01T00:00:00Z")) :=
  create_node_missing_parent [StructureNode.mk "A" "act" "Act 1" 0 [] none]
    "scene" "New Scene" "ZZZ" "fresh1" "2026-01-01T00:00:00Z"
    (by simp [contains_id])

/-! ## Claim C3: series index uniqueness
(src/backend/src/commands/project.rs)

The known-projects list is the state; create_project appends a record,
update_project rewrites the record stored at a path. Checks run before any
mutation, exactly as in the source. -/

/-- ProjectMeta (models/project.rs), restricted to the fields that
create/update and the duplicate check read or write; the remaining fields
(description, archived, language, coverImage, timestamps) are payload. -/
structure ProjectMeta where
  id : String
  title : String
  author : String
  seriesId : String
  seriesIndex : String
  path : String
  deriving DecidableEq, Repr

/-- check_duplicate_book_number (project.rs lines 292 to 319): true (ok)
iff no project other than the excluded one holds the exact
(seriesId, seriesIndex) pair. -/
def check_duplicate_book_number (projects : List ProjectMeta)
    (seriesId seriesIndex : String) (excludeId : Option String) : Bool :=
  projects.all (fun p =>
    (excludeId == some p.id)
      || !(p.seriesId == seriesId && p.seriesIndex == seriesIndex))

/-- create_project (project.rs lines 321 to 391): an empty seriesId and a
duplicate (seriesId, seriesIndex) pair are rejected before any mutation;
on success the new record joins the known projects. Title validation and
filesystem failures also abort without mutating and are absorbed into the
none result. -/
def create_project (projects : List ProjectMeta) (title author : String)
    (seriesId seriesIndex : String) (newId newPath : String) :
    Option (List ProjectMeta) :=
  if seriesId == "" then none
  else if check_duplicate_book_number projects seriesId seriesIndex none then
    some (projects ++ [⟨newId, title, author, seriesId, seriesIndex, newPath⟩])
  else none

/-- The update payload of update_project, restricted to the modelled
fields. -/
structure ProjectUpdates where
  title : Option String
  author : Option String
  seriesId : Option String
  seriesIndex : Option String
  deriving Repr

/-- Field-wise application of the Some fields of an update (project.rs
lines 565 to 588). -/
def apply_updates (p : ProjectMeta) (u : ProjectUpdates) : ProjectMeta :=
  { p with
    title := u.title.getD p.title
    author := u.author.getD p.author
    seriesId := u.seriesId.getD p.seriesId
    seriesIndex := u.seriesIndex.getD p.seriesIndex }

/-- update_project (project.rs lines 546 to 596): the project is looked up
by path; when seriesId or seriesIndex is being changed the duplicate check
runs excluding the project itself, rejecting before any field is applied;
on success the record at that path is rewritten. -/
def update_project (projects : List ProjectMeta) (path : String)
    (u : ProjectUpdates) : Option (List ProjectMeta) :=
  match projects.find? (fun p => p.path == path) with
  | none => none
  | some p =>
    let newSid := u.seriesId.getD p.seriesId
    let newSidx := u.seriesIndex.getD p.seriesIndex
    if (u.seriesId.isSome || u.seriesIndex.isSome)
        && !(check_duplicate_book_number projects newSid newSidx (some p.id)) then
      none
    else
      some (projects.map (fun q => if q.path == path then apply_updates q u else q))

/-- Two distinct known projects have distinct ids, distinct paths, and
distinct seriesIndex whenever they share a seriesId. -/
def ProjRel (p q : ProjectMeta) : Prop :=
  p.id ≠ q.id ∧ p.path ≠ q.path
    ∧ (p.seriesId = q.seriesId → p.seriesIndex ≠ q.seriesIndex)

theorem ProjRel.symm {p q : ProjectMeta} (h : ProjRel p q) : ProjRel q p :=
  ⟨Ne.symm h.1, Ne.symm h.2.1, fun hs => Ne.symm (h.2.2 hs.symm)⟩

def ProjectsOk (projects : List ProjectMeta) : Prop :=
  projects.Pairwise ProjRel

/-- One accepted API call: a create whose generated uuid and project
directory are fresh, or an update; both must have returned Ok. -/
inductive ProjectApiStep : List ProjectMeta → List ProjectMeta → Prop
  | create {projects : List ProjectMeta}
      (title author seriesId seriesIndex newId newPath : String)
      {next : List ProjectMeta}
      (hid : ∀ p ∈ projects, p.id ≠ newId)
      (hpath : ∀ p ∈ projects, p.path ≠ newPath)
      (h : create_project projects title author seriesId seriesIndex newId newPath
            = some next) :
      ProjectApiStep projects next
  | update {projects : List ProjectMeta} (path : String) (u : ProjectUpdates)
      {next : List ProjectMeta}
      (h : update_project projects path u = some next) :
      ProjectApiStep projects next

theorem apply_updates_path (p : ProjectMeta) (u : ProjectUpdates) :
    (apply_updates p u).path = p.path := rfl

theorem apply_updates_series_none (p : ProjectMeta) (u : ProjectUpdates)
    (h1 : u.seriesId = none) (h2 : u.seriesIndex = none) :
    (apply_updates p u).seriesId = p.seriesId
    ∧ (apply_updates p u).seriesIndex = p.seriesIndex := by
  simp [apply_updates, h1, h2]

theorem updates_none_of_not_some (u : ProjectUpdates)
    (h : ¬(u.seriesId.isSome || u.seriesIndex.isSome) = true) :
    u.seriesId = none ∧ u.seriesIndex = none := by
  cases hu1 : u.seriesId with
  | some v => exact absurd (by simp [hu1]) h
  | none =>
    cases hu2 : u.seriesIndex with
    | some w => exact absurd (by simp [hu2]) h
    | none => exact ⟨rfl, rfl⟩

theorem check_duplicate_spec (projects : List ProjectMeta)
    (sid sidx : String) (ex : Option String)
    (h : check_duplicate_book_number projects sid sidx ex = true) :
    ∀ p ∈ projects, ex ≠ some p.id →
      ¬(p.seriesId = sid ∧ p.seriesIndex = sidx) := by
  intro p hp hex
  have := (List.all_eq_true.mp h) p hp
  simp only [Bool.or_eq_true, beq_iff_eq, Bool.not_eq_true',
    Bool.and_eq_false_iff] at this
  rcases this with hcase | hcase
  · exact absurd hcase hex
  · rintro ⟨h1, h2⟩
    rcases hcase with hc | hc
    · simp [h1] at hc
    · simp [h2] at hc

theorem projectsOk_preserved (s t : List ProjectMeta)
    (hok : ProjectsOk s) (hstep : ProjectApiStep s t) : ProjectsOk t := by
  cases hstep with
  | create title author sid sidx newId newPath hid hpath h =>
    simp only [create_project] at h
    by_cases hsid : (sid == "") = true
    · rw [if_pos hsid] at h
      exact absurd h (by simp)
    · rw [if_neg hsid] at h
      by_cases hchk : check_duplicate_book_number s sid sidx none = true
      · rw [if_pos hchk] at h
        cases h
        rw [ProjectsOk, List.pairwise_append]
        refine ⟨hok, by simp, ?_⟩
        intro a ha b hb
        rw [List.mem_singleton] at hb
        subst hb
        refine ⟨hid a ha, hpath a ha, ?_⟩
        intro hseq
        have := check_duplicate_spec s sid sidx none hchk a ha (by simp)
        intro hix
        exact this ⟨hseq, hix⟩
      · rw [if_neg hchk] at h
        exact absurd h (by simp)
  | update path u h =>
    simp only [update_project] at h
    cases hfind : s.find? (fun p => p.path == path) with
    | none =>
      rw [hfind] at h
      exact absurd h (by simp)
    | some p =>
      rw [hfind] at h
      have hp_mem : p ∈ s := List.mem_of_find?_eq_some hfind
      have hp_path : p.path = path := by
        have := List.find?_some hfind
        simpa using this
      have h2 : (if ((u.seriesId.isSome || u.seriesIndex.isSome)
            && !(check_duplicate_book_number s (u.seriesId.getD p.seriesId)
                  (u.seriesIndex.getD p.seriesIndex) (some p.id))) = true then
              (none : Option (List ProjectMeta))
          else some (s.map (fun q => if q.path == path then apply_updates q u else q)))
          = some t := h
      clear h
      by_cases hguard : ((u.seriesId.isSome || u.seriesIndex.isSome)
          && !(check_duplicate_book_number s (u.seriesId.getD p.seriesId)
                (u.seriesIndex.getD p.seriesIndex) (some p.id))) = true
      · rw [if_pos hguard] at h2
        exact absurd h2 (by simp)
      · rw [if_neg hguard] at h2
        cases h2
        rw [ProjectsOk, List.pairwise_map]
        have hpathinj : ∀ a ∈ s, a.path = path → a = p := by
          intro a ha hap
          by_contra hne
          have hr := List.Pairwise.forall
            (fun _ _ hxy => ProjRel.symm hxy) hok ha hp_mem hne
          exact hr.2.1 (by rw [hap, hp_path])
        rw [Bool.and_eq_true] at hguard
        push_neg at hguard
        refine List.Pairwise.imp_of_mem ?_ hok
        intro a b ha hb hab
        by_cases hap : a.path = path
        · have hae : a = p := hpathinj a ha hap
          have hbp : ¬(b.path = path) := by
            intro hbpe
            exact hab.2.1 (by rw [hap, hbpe])
          rw [if_pos (by simp [hap]), if_neg (by simp [hbp])]
          subst hae
          by_cases hsome : (u.seriesId.isSome || u.seriesIndex.isSome) = true
          · have hchk : check_duplicate_book_number s
                (u.seriesId.getD a.seriesId) (u.seriesIndex.getD a.seriesIndex)
                (some a.id) = true := by
              have := hguard hsome
              simpa using this
            have hnb := check_duplicate_spec s _ _ _ hchk b hb
              (by simp; intro hh; exact hab.1 hh)
            refine ⟨hab.1, by rw [apply_updates_path]; exact hab.2.1, ?_⟩
            intro hseq hix
            exact hnb ⟨hseq.symm, hix.symm⟩
          · obtain ⟨hn1, hn2⟩ := updates_none_of_not_some u hsome
            obtain ⟨e1, e2⟩ := apply_updates_series_none a u hn1 hn2
            refine ⟨hab.1, by rw [apply_updates_path]; exact hab.2.1, ?_⟩
            rw [e1, e2]
            exact hab.2.2
        · by_cases hbp : b.path = path
          · have hbe : b = p := hpathinj b hb hbp
            rw [if_neg (by simp [hap]), if_pos (by simp [hbp])]
            subst hbe
            by_cases hsome : (u.seriesId.isSome || u.seriesIndex.isSome) = true
            · have hchk : check_duplicate_book_number s
                  (u.seriesId.getD b.seriesId) (u.seriesIndex.getD b.seriesIndex)
                  (some b.id) = true := by
                have := hguard hsome
                simpa using this
              have hna := check_duplicate_spec s _ _ _ hchk a ha
                (by simp; intro hh; exact hab.1 hh.symm)
              refine ⟨hab.1, by rw [apply_updates_path]; exact hab.2.1, ?_⟩
              intro hseq hix
              exact hna ⟨hseq, hix⟩
            · obtain ⟨hn1, hn2⟩ := updates_none_of_not_some u hsome
              obtain ⟨e1, e2⟩ := apply_updates_series_none b u hn1 hn2
              refine ⟨hab.1, by rw [apply_updates_path]; exact hab.2.1, ?_⟩
              rw [e1, e2]
              exact hab.2.2
          · rw [if_neg (by simp [hap]), if_neg (by simp [hbp])]
            exact hab

/-- The states reachable from an empty project list through accepted
create/update calls. -/
def ProjectsReachable (s : List ProjectMeta) : Prop :=
  Relation.ReflTransGen ProjectApiStep [] s

/-- Claim C3: after any sequence of createProject/updateProject calls the
API accepted, starting from no projects, any two distinct known projects
with the same seriesId have different seriesIndex; a call that would
introduce a duplicate pair is rejected (returns none) before any mutation,
which is what each reachability step certifies. -/
theorem project_series_index_unique (s : List ProjectMeta)
    (h : ProjectsReachable s) :
    s.Pairwise (fun p q => p.seriesId = q.seriesId → p.seriesIndex ≠ q.seriesIndex) := by
  have hok : ProjectsOk s := by
    induction h with
    | refl => exact List.Pairwise.nil
    | tail hsteps hstep ih => exact projectsOk_preserved _ _ ih hstep
  exact hok.imp (fun h => h.2.2)

def projP1 : ProjectMeta :=
  ⟨"id1", "Book One", "Ann", "S1", "Book 1", "/projects/book-one"⟩

def projP2 : ProjectMeta :=
  ⟨"id2", "Book Two", "Ann", "S1", "Book 2", "/projects/book-two"⟩

/-- Witness for claim C3: two accepted creates in series S1 with book
numbers Book 1 and Book 2. -/
theorem project_series_index_unique_witness :
    ([projP1, projP2] : List ProjectMeta).Pairwise
      (fun p q => p.seriesId = q.seriesId → p.seriesIndex ≠ q.seriesIndex) := by
  apply project_series_index_unique
  have s1 : ProjectApiStep [] [projP1] :=
    ProjectApiStep.create "Book One" "Ann" "S1" "Book 1" "id1"
      "/projects/book-one" (by simp) (by simp) (by decide)
  have s2 : ProjectApiStep [projP1] [projP1, projP2] :=
    ProjectApiStep.create "Book Two" "Ann" "S1" "Book 2" "id2"
      "/projects/book-two" (by decide) (by decide) (by decide)
  exact Relation.ReflTransGen.tail
    (Relation.ReflTransGen.tail Relation.ReflTransGen.refl s1) s2

/-! ## Claim C8: thread timestamps in restore_chats
(src/backend/src/commands/backup.rs lines 710 to 894)

A backup message contributes its trimmed threadId and its normalized
timestamp to the per-thread maximum; the other message fields (id, role,
content) are normalized in place and never influence the thread records,
so they are not carried here. A thread record is keyed by the trimmed id
of its chat object. -/

/-- Executable model of the trim applied to ids (whitespace stripped from
both ends). -/
def strTrim (s : String) : String :=
  ⟨((s.data.dropWhile Char.isWhitespace).reverse.dropWhile
      Char.isWhitespace).reverse⟩

/-- normalize_timestamp (backup.rs lines 698 to 708): an absent or
non-numeric value falls back to the given timestamp. -/
def normalize_timestamp (v : Option Int) (fallback : Int) : Int :=
  v.getD fallback

/-- A backup message restricted to the fields that drive thread
synthesis. -/
structure BackupMsg where
  threadId : String
  timestamp : Option Int
  deriving DecidableEq, Repr

/-- A backup chat record restricted to the fields that drive thread
timestamps. -/
structure BackupChat where
  id : String
  createdAt : Option Int
  updatedAt : Option Int
  deriving DecidableEq, Repr

/-- A stored thread record, keyed by its trimmed id. -/
structure ChatThread where
  id : String
  createdAt : Int
  updatedAt : Int
  deriving DecidableEq, Repr

/-- thread_max_timestamp (backup.rs lines 785 to 792): the running maximum
of the normalized timestamps of the messages grouped under a nonempty
trimmed thread id; absent for an id no message carries. -/
def thread_max_timestamp (msgs : List BackupMsg) (now : Int) (tid : String) :
    Option Int :=
  if tid = "" then none
  else
    match (msgs.filter (fun m => strTrim m.threadId == tid)).map
        (fun m => normalize_timestamp m.timestamp now) with
    | [] => none
    | t :: ts => some (ts.foldl max t)

/-- The updatedAt raise of backup.rs lines 838 to 843: the normalized
updatedAt is replaced by the per-thread message maximum when that is
larger. -/
def chat_thread_updated_at (msgs : List BackupMsg) (now : Int) (tid : String)
    (ua0 : Int) : Int :=
  match thread_max_timestamp msgs now tid with
  | some mx => if mx > ua0 then mx else ua0
  | none => ua0

/-- The chats loop of restore_chats (backup.rs lines 796 to 858): chats
with an empty trimmed id or an already-seen id are skipped; accepted chats
produce a thread whose updatedAt is raised to the message maximum. -/
def chat_threads_from_chats (msgs : List BackupMsg) (now : Int) :
    List BackupChat → List String → List ChatThread
  | [], _ => []
  | c :: cs, seen =>
    let tid := strTrim c.id
    if tid = "" || seen.contains tid then
      chat_threads_from_chats msgs now cs seen
    else
      let createdAt := normalize_timestamp c.createdAt now
      let ua0 := normalize_timestamp c.updatedAt createdAt
      ⟨tid, createdAt, chat_thread_updated_at msgs now tid ua0⟩
        :: chat_threads_from_chats msgs now cs (tid :: seen)

/-- restore_chats, thread synthesis part (backup.rs lines 796 to 880):
threads accepted from the chats array, then one fallback thread per
message thread id that no chat record covered, with both timestamps set to
the message maximum (now if somehow absent). -/
def restore_chats_threads (chats : List BackupChat) (msgs : List BackupMsg)
    (now : Int) : List ChatThread :=
  let base := chat_threads_from_chats msgs now chats []
  let seen := base.map (fun t => t.id)
  let fallback :=
    ((((msgs.map (fun m => strTrim m.threadId)).filter (fun s => s != "")).dedup).filter
      (fun tid => !(seen.contains tid))).map
      (fun tid =>
        let mx := (thread_max_timestamp msgs now tid).getD now
        (⟨tid, mx, mx⟩ : ChatThread))
  base ++ fallback

theorem foldl_max_init_le (l : List Int) (a : Int) : a ≤ l.foldl max a := by
  induction l generalizing a with
  | nil => exact le_refl a
  | cons b bs ih => exact le_trans (le_max_left a b) (ih (max a b))

theorem le_foldl_max (l : List Int) (a x : Int) (h : x = a ∨ x ∈ l) :
    x ≤ l.foldl max a := by
  induction l generalizing a with
  | nil =>
    rcases h with rfl | h
    · exact le_refl x
    · simp at h
  | cons b bs ih =>
    rcases h with rfl | h
    · exact le_trans (le_max_left x b) (foldl_max_init_le bs (max x b))
    · rcases List.mem_cons.mp h with rfl | h
      · exact le_trans (le_max_right a x) (foldl_max_init_le bs (max a x))
      · exact ih (max a b) (Or.inr h)

theorem thread_max_timestamp_mem (msgs : List BackupMsg) (now : Int)
    (tid : String) (m : BackupMsg) (hm : m ∈ msgs)
    (hid : strTrim m.threadId = tid) (hne : tid ≠ "") :
    ∃ mx, thread_max_timestamp msgs now tid = some mx
      ∧ normalize_timestamp m.timestamp now ≤ mx := by
  have hmem : normalize_timestamp m.timestamp now
      ∈ (msgs.filter (fun m => strTrim m.threadId == tid)).map
          (fun m => normalize_timestamp m.timestamp now) :=
    List.mem_map_of_mem _ (List.mem_filter.mpr ⟨hm, by simp [hid]⟩)
  rw [thread_max_timestamp, if_neg hne]
  cases hl : (msgs.filter (fun m => strTrim m.threadId == tid)).map
      (fun m => normalize_timestamp m.timestamp now) with
  | nil =>
    rw [hl] at hmem
    simp at hmem
  | cons t ts =>
    rw [hl] at hmem
    refine ⟨ts.foldl max t, rfl, ?_⟩
    rcases List.mem_cons.mp hmem with rfl | h
    · exact le_foldl_max ts _ _ (Or.inl rfl)
    · exact le_foldl_max ts t _ (Or.inr h)

theorem chat_thread_updated_at_ge (msgs : List BackupMsg) (now : Int)
    (tid : String) (ua0 : Int) (mx : Int)
    (hmx : thread_max_timestamp msgs now tid = some mx) :
    mx ≤ chat_thread_updated_at msgs now tid ua0 := by
  simp only [chat_thread_updated_at, hmx]
  by_cases hgt : mx > ua0
  · rw [if_pos hgt]
  · rw [if_neg hgt]
    omega

theorem chat_threads_from_chats_spec (msgs : List BackupMsg) (now : Int)
    (cs : List BackupChat) (seen : List String) (t : ChatThread)
    (ht : t ∈ chat_threads_from_chats msgs now cs seen) :
    t.id ≠ ""
    ∧ (∀ mx, thread_max_timestamp msgs now t.id = some mx → mx ≤ t.updatedAt) := by
  induction cs generalizing seen with
  | nil => simp [chat_threads_from_chats] at ht
  | cons c cs ih =>
    rw [chat_threads_from_chats] at ht
    by_cases hskip : (strTrim c.id = "" || seen.contains (strTrim c.id)) = true
    · rw [if_pos hskip] at ht
      exact ih seen ht
    · rw [if_neg hskip] at ht
      rcases List.mem_cons.mp ht with rfl | h
      · have hne : strTrim c.id ≠ "" := by
          intro he
          simp [he] at hskip
        exact ⟨hne, fun mx hmx =>
          chat_thread_updated_at_ge msgs now (strTrim c.id) _ mx hmx⟩
      · exact ih _ h

/-- Claim C8: after chat import, every stored thread has updatedAt greater
than or equal to the normalized timestamp of every imported message whose
trimmed threadId equals the thread id. -/
theorem restore_chats_updated_at_max (chats : List BackupChat)
    (msgs : List BackupMsg) (now : Int) (t : ChatThread) (m : BackupMsg)
    (ht : t ∈ restore_chats_threads chats msgs now)
    (hm : m ∈ msgs) (hid : strTrim m.threadId = t.id) :
    normalize_timestamp m.timestamp now ≤ t.updatedAt := by
  rw [restore_chats_threads] at ht
  simp only [List.mem_append] at ht
  rcases ht with hbase | hfall
  · obtain ⟨hne, hmax⟩ := chat_threads_from_chats_spec msgs now chats [] t hbase
    obtain ⟨mx, hmx, hle⟩ := thread_max_timestamp_mem msgs now t.id m hm hid hne
    exact le_trans hle (hmax mx hmx)
  · simp only [List.mem_map] at hfall
    obtain ⟨tid, htid, rfl⟩ := hfall
    have hne : tid ≠ "" := by
      have h1 := (List.mem_filter.mp htid).1
      have h2 := (List.mem_filter.mp (List.mem_dedup.mp h1)).2
      simpa using h2
    obtain ⟨mx, hmx, hle⟩ := thread_max_timestamp_mem msgs now tid m hm hid hne
    simp only [hmx, Option.getD_some]
    exact hle

/-- A chat thread record with stale updatedAt 50 and three messages, two
on its thread. -/
def c8Chats : List BackupChat := [⟨"T1", some 100, some 50⟩]

def c8Msgs : List BackupMsg := [⟨"T1", some 500⟩, ⟨"T1", none⟩, ⟨"T2", some 900⟩]

/-- Witness for claim C8: the T1 thread is stored with updatedAt raised to
500, at least the timestamp of the message at 500. -/
theorem restore_chats_updated_at_max_witness :
    normalize_timestamp (some 500) 200
      ≤ (⟨"T1", 100, 500⟩ : ChatThread).updatedAt :=
  restore_chats_updated_at_max c8Chats c8Msgs 200 ⟨"T1", 100, 500⟩
    ⟨"T1", some 500⟩ (by decide) (by decide) (by decide)

/-! ## Claim C9: write-to-temp-then-rename
(src/backend/src/utils/io.rs, src/backend/src/commands/scene.rs,
src/backend/src/commands/project.rs)

A path is modelled as stem plus extension, so that with_extension of
io.rs line 8 is the extension swap. The persisted effects of one save are
a list; a crash can stop between effects, or in the middle of a plain file
write leaving any prefix of the content (a rename is atomic). -/

structure FPath where
  stem : String
  ext : String
  deriving DecidableEq, Repr

inductive WriteEffect where
  | fileWrite (path : FPath) (content : String)
  | fileRename (src dst : FPath)
  deriving DecidableEq, Repr

/-- path.with_extension of io.rs line 8: the extension is replaced by
tmp. -/
def with_extension_tmp (p : FPath) : FPath := ⟨p.stem, "tmp"⟩

/-- atomic_write (io.rs lines 7 to 19): write the full content to the
temporary file, then rename it over the target. -/
def atomic_write (p : FPath) (content : String) : List WriteEffect :=
  [.fileWrite (with_extension_tmp p) content,
   .fileRename (with_extension_tmp p) p]

/-- write_scene_to_path (scene.rs lines 195 to 199): the front matter and
body are concatenated and handed to atomic_write. -/
def write_scene_to_path (p : FPath) (frontmatter content : String) :
    List WriteEffect :=
  atomic_write p (frontmatter ++ content)

/-- The persistence step of update_project (project.rs line 593): a single
direct fs::write of the serialized project to project.json, with no
temporary file. create_project (line 380) writes the same way. -/
def update_project_write (metaPath : FPath) (json : String) :
    List WriteEffect :=
  [.fileWrite metaPath json]

abbrev Disk := List (FPath × String)

def getFile (d : Disk) (p : FPath) : Option String :=
  (d.find? (fun e => e.1 == p)).map (fun e => e.2)

def setFile (d : Disk) (p : FPath) (c : String) : Disk :=
  (d.filter (fun e => e.1 != p)) ++ [(p, c)]

def renameFile (d : Disk) (src dst : FPath) : Disk :=
  match getFile d src with
  | some c => setFile (d.filter (fun e => e.1 != src)) dst c
  | none => d

/-- The disks an interruption can leave behind while a list of effects
runs: stop before any effect, stop in the middle of a file write leaving
any prefix of the content at its path, or complete the head effect and
crash later; a rename happens atomically or not at all. -/
inductive CrashResult : List WriteEffect → Disk → Disk → Prop
  | here (effs : List WriteEffect) (d : Disk) : CrashResult effs d d
  | midWrite (p : FPath) (c frag : String) (rest : List WriteEffect) (d : Disk)
      (hfrag : frag.data.isPrefixOf c.data = true) :
      CrashResult (.fileWrite p c :: rest) d (setFile d p frag)
  | stepWrite (p : FPath) (c : String) (rest : List WriteEffect) (d d2 : Disk)
      (hrest : CrashResult rest (setFile d p c) d2) :
      CrashResult (.fileWrite p c :: rest) d d2
  | stepRename (src dst : FPath) (rest : List WriteEffect) (d d2 : Disk)
      (hrest : CrashResult rest (renameFile d src dst) d2) :
      CrashResult (.fileRename src dst :: rest) d d2

theorem getFile_setFile_same (d : Disk) (p : FPath) (c : String) :
    getFile (setFile d p c) p = some c := by
  induction d with
  | nil => simp [setFile, getFile, List.find?]
  | cons e es ih =>
    by_cases he : e.1 = p
    · simpa [setFile, he] using ih
    · simp only [setFile] at ih ⊢
      rw [List.filter_cons_of_pos (by simp [he]), List.cons_append]
      simp only [getFile] at ih ⊢
      rw [List.find?_cons_of_neg _ (by simp [he])]
      exact ih

theorem getFile_setFile_ne (d : Disk) (p q : FPath) (c : String)
    (hne : q ≠ p) : getFile (setFile d p c) q = getFile d q := by
  have hpq : (p == q) = false :=
    beq_eq_false_iff_ne.mpr (fun h => hne (Eq.symm h))
  induction d with
  | nil =>
    simp only [setFile, getFile, List.filter_nil, List.nil_append, List.find?]
    rw [hpq]
  | cons e es ih =>
    by_cases he : e.1 = p
    · rw [show setFile (e :: es) p c = setFile es p c by
        simp [setFile, List.filter_cons, he]]
      rw [ih]
      simp only [getFile]
      rw [List.find?_cons_of_neg _ (by rw [he]; simp [hpq])]
    · rw [show setFile (e :: es) p c = e :: setFile es p c by
        simp [setFile, List.filter_cons, he]]
      simp only [getFile, List.find?_cons] at ih ⊢
      by_cases heq : e.1 = q
      · rw [show (e.1 == q) = true by simp [heq]]
      · rw [show (e.1 == q) = false by simp [heq]]
        exact ih

/-- Claim C9 as amended: scene documents are written with the
write-to-temp-then-rename pattern, so every crash state of a scene save
leaves the target either untouched or holding the full new content; but
project metadata (project.json in update_project and create_project) is
written with a single direct fs::write, which an interruption can leave
holding a strict prefix of the new content. The theorem proves the scene
half; the counterexample exhibits the partial project.json write. -/
theorem write_scene_atomic (d : Disk) (target : FPath) (fm body : String)
    (hext : target.ext ≠ "tmp") (d2 : Disk)
    (hc : CrashResult (write_scene_to_path target fm body) d d2) :
    getFile d2 target = getFile d target
    ∨ getFile d2 target = some (fm ++ body) := by
  have htmp : with_extension_tmp target ≠ target := by
    intro he
    exact hext (by rw [← he]; rfl)
  rw [write_scene_to_path, atomic_write] at hc
  cases hc with
  | here => exact Or.inl rfl
  | midWrite p c frag rest d hfrag =>
    exact Or.inl (getFile_setFile_ne d (with_extension_tmp target) target frag
      (fun h => htmp h.symm))
  | stepWrite p c rest d d2 hrest =>
    cases hrest with
    | here =>
      exact Or.inl (getFile_setFile_ne d (with_extension_tmp target) target _
        (fun h => htmp h.symm))
    | stepRename src dst rest d3 d4 hrest2 =>
      cases hrest2 with
      | here =>
        refine Or.inr ?_
        rw [renameFile, getFile_setFile_same]
        exact getFile_setFile_same _ target (fm ++ body)

def c9Path : FPath := ⟨"project", "json"⟩

def c9Disk : Disk := [(c9Path, "OLDJSON")]

/-- Claim C9, counterexample: update_project persists project.json with a
single direct write; the crash state that stops mid-write leaves the
target holding the fragment NE, which is neither the old content nor the
full new content, so the write of project metadata is not protected by
the temp-then-rename pattern. -/
theorem update_project_write_not_atomic :
    CrashResult (update_project_write c9Path "NEWJSON") c9Disk
      (setFile c9Disk c9Path "NE")
    ∧ getFile (setFile c9Disk c9Path "NE") c9Path = some "NE"
    ∧ getFile c9Disk c9Path = some "OLDJSON"
    ∧ ("NE" : String) ≠ "OLDJSON" ∧ ("NE" : String) ≠ "NEWJSON" :=
  ⟨CrashResult.midWrite c9Path "NEWJSON" "NE" [] c9Disk (by decide),
   by decide, by decide, by decide, by decide⟩

def c9ScenePath : FPath := ⟨"scene1", "md"⟩

/-- Witness for the amended claim C9: a scene save interrupted before any
effect leaves the old content in place. -/
theorem write_scene_atomic_witness :
    getFile [(c9ScenePath, "old")] c9ScenePath
        = getFile [(c9ScenePath, "old")] c9ScenePath
    ∨ getFile [(c9ScenePath, "old")] c9ScenePath = some ("FM" ++ "BODY") :=
  write_scene_atomic [(c9ScenePath, "old")] c9ScenePath "FM" "BODY"
    (by decide) [(c9ScenePath, "old")]
    (CrashResult.here _ _)

end BAA
